import Mathlib

/-
Verification of the searchv2 extension (collector.py + builder.py): a shallow
embedding of the search-index builder and proofs about its operations.

Modelling conventions:
- Python `dict` is an insertion-ordered association list `List (String × α)`
  (`dlookup` finds the first binding, `dinsert` updates in place or appends,
  exactly like `d[k] = v`).
- Python `set` of docnames is a duplicate-free `List String`; every observation
  the source makes of such a set (membership, `len`, `sorted(...)`,
  single-element unpacking) is order-insensitive, so a deduplicated list is an
  observationally faithful model.
- Machine strings are Lean `String`s; text processing (lowercasing, splitting,
  the raw-HTML regex substitutions) is implemented by structural recursion on
  `String.data` so that everything evaluates inside the kernel.
- `env.version` is modelled as an opaque version tag of type `String`.
-/

set_option autoImplicit false

namespace SearchV2

/-! ## Association lists: the model of Python dicts -/

def dlookup {α : Type} : List (String × α) → String → Option α
  | [], _ => none
  | (k, v) :: rest, key => if k = key then some v else dlookup rest key

/-- Python assignment `d[k] = v`: replace the first binding of `k` in place, else append. -/
def dinsert {α : Type} : List (String × α) → String → α → List (String × α)
  | [], key, v => [(key, v)]
  | (k, w) :: rest, key, v =>
      if k = key then (k, v) :: rest else (k, w) :: dinsert rest key v

def dkeys {α : Type} (d : List (String × α)) : List String := d.map Prod.fst

def NodupKeys {α : Type} (d : List (String × α)) : Prop := (dkeys d).Nodup

instance {α : Type} (d : List (String × α)) : Decidable (NodupKeys d) :=
  inferInstanceAs (Decidable (dkeys d).Nodup)

/-- Python `dict(pairs)`: later duplicate keys overwrite earlier ones. -/
def dictFromPairs {α : Type} (pairs : List (String × α)) : List (String × α) :=
  pairs.foldl (fun acc kv => dinsert acc kv.1 kv.2) []

/-! ## Duplicate-free lists: the model of Python sets of docnames -/

/-- Python `s.add(x)` on a set modelled as a duplicate-free list. -/
def sadd (s : List String) (x : String) : List String :=
  if x ∈ s then s else s ++ [x]

/-! ## Sorting (model of Python `sorted`) -/

def sinsert {α : Type} (le : α → α → Bool) (x : α) : List α → List α
  | [] => [x]
  | y :: ys => if le x y then x :: y :: ys else y :: sinsert le x ys

def insSortBy {α : Type} (le : α → α → Bool) : List α → List α
  | [] => []
  | x :: xs => sinsert le x (insSortBy le xs)

/-- Code-point lexicographic order on char lists (Python string `<`). -/
def lexLt : List Char → List Char → Bool
  | [], [] => false
  | [], _ :: _ => true
  | _ :: _, [] => false
  | a :: as, b :: bs => if a < b then true else if b < a then false else lexLt as bs

def strLe (a b : String) : Bool := !(lexLt b.data a.data)

def keyLe {α : Type} (a b : String × α) : Bool := strLe a.1 b.1

def intLe (a b : Int) : Bool := decide (a ≤ b)

/-- Python dict comprehension mapping each element of `xs` to its index, as in
`enumerate` (keys are distinct in all uses). -/
def enumPairs (i : Int) : List String → List (String × Int)
  | [] => []
  | x :: xs => (x, i) :: enumPairs (i + 1) xs

/-- Python list indexing `xs[i]`, including negative indices;
`none` models an `IndexError`. -/
def pyIndex {α : Type} (xs : List α) (i : Int) : Option α :=
  match i with
  | .ofNat n => xs.get? n
  | .negSucc n => if n + 1 ≤ xs.length then xs.get? (xs.length - (n + 1)) else none

/-! ## Text utilities (structural models of the Python string operations) -/

/-- ASCII lowercasing of one character (`str.lower` on the letters involved). -/
def lowerA (c : Char) : Char :=
  if 'A' ≤ c ∧ c ≤ 'Z' then Char.ofNat (c.toNat + 32) else c

def strLower (s : String) : String := String.mk (s.data.map lowerA)

/-- Split a char list at every separator, keeping empty chunks
(Python `str.split(sep)` for a one-character separator). -/
def splitL (p : Char → Bool) : List Char → List (List Char)
  | [] => [[]]
  | c :: cs =>
      let r := splitL p cs
      if p c then [] :: r
      else
        match r with
        | [] => [[c]]
        | w :: ws => (c :: w) :: ws

/-- Python `str.split()` with no argument: split on whitespace, drop empties. -/
def splitWs (s : String) : List String :=
  ((splitL (fun c => c.isWhitespace) s.data).filter (fun w => w ≠ [])).map String.mk

/-- Python `str.strip()`. -/
def trimS (s : String) : String :=
  String.mk (((s.data.dropWhile Char.isWhitespace).reverse.dropWhile
    Char.isWhitespace).reverse)

/-- Python `str.split(',')` followed by `str.strip()` of every piece. -/
def splitComma (s : String) : List String :=
  (splitL (fun c => c = ',') s.data).map (fun w => trimS (String.mk w))

/-! ## Python values (the snapshot wire format) -/

inductive PyVal where
  | none
  | int (n : Int)
  | str (s : String)
  | list (xs : List PyVal)
  | dict (entries : List (String × PyVal))

/-! ## TextNormalizer: the per-language ruleset bound to the builder -/

/-- The capabilities of a `SearchLanguage` ruleset used by the core:
the language code, `split`, `stem` and `word_filter`. -/
structure SearchLang where
  lang : String
  split : String → List String
  stem : String → String
  word_filter : String → Bool

/-- The `IndexBuilder.__init__` language resolution (builder.py lines 38-52):
exact code, then the code truncated at the first `_`, then English.  The
registry of language rulesets and the English default are collaborator inputs
(`sphinx.search.languages` / `SearchEnglish`); the string-valued registry
entries of the source are dynamic imports of exactly these rulesets, so the
registry is modelled as mapping codes directly to rulesets. -/
def baseCode (code : String) : String :=
  String.mk (code.data.takeWhile (fun c => c ≠ '_'))

def resolveLang (registry : List (String × SearchLang)) (english : SearchLang)
    (code : String) : SearchLang :=
  match dlookup registry code with
  | some c => c
  | Option.none =>
      if '_' ∈ code.data then
        match dlookup registry (baseCode code) with
        | some c => c
        | Option.none => english
      else english

/-! ## WordCollector (collector.py) -/

/-- A parsed docutils node, restricted to the kinds `dispatch_visit`
distinguishes: `comment`, `raw` (with its `format` attribute), `Text`,
`title`, a meta node carrying `name`/`lang`/`content` attributes, and every
other element (which contributes nothing but is traversed into). -/
inductive DocNode where
  | text (s : String)
  | comment (children : List DocNode)
  | raw (format : String) (children : List DocNode)
  | title (children : List DocNode)
  | meta (name : Option String) (langAttr : Option String) (content : String)
  | element (children : List DocNode)

/- No word-collection function is defined over these trees: a `WordCollector`
never carries the language ruleset its visitor reads.  Its `__init__`
(collector.py line 15) accepts only the document and sets only the two word
lists, while `dispatch_visit` and `is_meta_keywords` read `self.lang`
(collector.py lines 26, 41, 44 and 46): visiting any `Text`, `title` or
raw-HTML node — every branch that would produce words — raises
`AttributeError`.  Only the branches that touch no attribute behave:
comments and non-HTML raw nodes raise `SkipNode` and contribute nothing. -/

/-! ## IndexStore (the mutable state of `IndexBuilder`) -/

/-- The index state of `IndexBuilder`: `_titles`, `_filenames`, `_mapping`
(body terms), `_title_mapping` and `_stem_cache`.  Title and filename values
are arbitrary Python values (`feed` always stores strings, but `load` copies
snapshot fields verbatim). -/
structure Store where
  titles : List (String × PyVal)
  filenames : List (String × PyVal)
  mapping : List (String × List String)
  title_mapping : List (String × List String)
  stem_cache : List (String × String)

def emptyStore : Store := ⟨[], [], [], [], []⟩

/-- The exception `feed` raises: the `TypeError` of calling a one-argument
`__init__` with two arguments. -/
inductive FeedErr where
  | typeErr
deriving DecidableEq

/-- Model of `IndexBuilder.feed` (builder.py lines 172-203).  The title and
filename registries are assigned first (lines 174-175); line 177 then calls
`WordCollector(doctree, self.lang)`, but `WordCollector.__init__`
(collector.py line 15) accepts only the document, so the call raises
`TypeError` and everything after it — the walk, the memoized stemmer and
both word loops of lines 178-203 — is unreachable: no call to `feed` ever
touches `_mapping`, `_title_mapping` or `_stem_cache`. -/
def feed (lang : SearchLang) (st : Store) (docname filename title : String)
    (doctree : DocNode) : Store × Option FeedErr :=
  ({ st with
     titles := dinsert st.titles docname (.str title)
     filenames := dinsert st.filenames docname (.str filename) },
   some .typeErr)

/-- Model of `IndexBuilder.prune` (builder.py lines 157-170): rebuild
`_titles`/`_filenames` from the kept docnames, intersect every term set of
both mappings with the keep set.  `none` models the `KeyError` raised when a
kept, titled docname has no `_filenames` entry. -/
def pruneRegs (st : Store) :
    List String → List (String × PyVal) × List (String × PyVal) →
    Option (List (String × PyVal) × List (String × PyVal))
  | [], acc => some acc
  | d :: rest, acc =>
      match dlookup st.titles d with
      | Option.none => pruneRegs st rest acc
      | some tv =>
          match dlookup st.filenames d with
          | Option.none => none
          | some fv => pruneRegs st rest (dinsert acc.1 d tv, dinsert acc.2 d fv)

/-- Pointwise `wordnames.intersection_update(docnames)` over a term mapping. -/
def pruneMap (docnames : List String) (m : List (String × List String)) :
    List (String × List String) :=
  m.map (fun kv => (kv.1, kv.2.filter (fun d => d ∈ docnames)))

def prune (st : Store) (docnames : List String) : Option Store :=
  match pruneRegs st docnames ([], []) with
  | Option.none => none
  | some (nt, nf) =>
      some
        { st with
          titles := nt
          filenames := nf
          mapping := pruneMap docnames st.mapping
          title_mapping := pruneMap docnames st.title_mapping }

/-! ## Serializer: `get_terms`, `freeze`, `load` -/

/-- Encoding of one term's document set in `get_terms` (builder.py lines
128-138): a single-document set whose document is indexed becomes a scalar
index; a single-document set whose document is unknown to `fn2index` is
dropped; any other set becomes the sorted list of indices of its known
documents. -/
def term2idx (fn2index : List (String × Int)) (v : List String) : Option PyVal :=
  match v with
  | [fn] =>
      match dlookup fn2index fn with
      | some i => some (.int i)
      | Option.none => none
  | _ =>
      some (.list ((insSortBy intLe
        (v.filterMap (fun fn => dlookup fn2index fn))).map PyVal.int))

def get_terms1 (fn2index : List (String × Int)) (m : List (String × List String)) :
    List (String × PyVal) :=
  m.filterMap (fun kv => (term2idx fn2index kv.2).map (fun pv => (kv.1, pv)))

/-- Model of `IndexBuilder.freeze` (builder.py lines 140-152).  `none` models
the `ValueError` from unpacking `zip(*sorted(self._titles.items()))` when no
document was ever fed.  The object catalog comes from the cross-reference
domain registry (`self.env.domains`), an external collaborator read at freeze
time; it is supplied as the function `getObjects` of `fn2index`, yielding the
`objects`, `objtypes` and `objnames` fields. -/
def freeze (ver : String)
    (getObjects : List (String × Int) → PyVal × PyVal × PyVal) (st : Store) :
    Option PyVal :=
  match insSortBy keyLe st.titles with
  | [] => none
  | itm :: itms =>
      let sortedItems := itm :: itms
      let docnames := sortedItems.map Prod.fst
      let titles := sortedItems.map Prod.snd
      let filenames := docnames.map (fun d => (dlookup st.filenames d).getD PyVal.none)
      let fn2index := enumPairs 0 docnames
      let terms := get_terms1 fn2index st.mapping
      let titleterms := get_terms1 fn2index st.title_mapping
      let ob := getObjects fn2index
      some (.dict
        [("docnames", .list (docnames.map .str)),
         ("filenames", .list filenames),
         ("titles", .list titles),
         ("terms", .dict terms),
         ("objects", ob.1),
         ("objtypes", ob.2.1),
         ("objnames", ob.2.2),
         ("titleterms", .dict titleterms),
         ("envversion", .str ver)])

/-- How a `load` call can end short of returning.  `format` is the explicit
`ValueError('old format')`; `key`, `typeErr`, `attr` and `index` are the
`KeyError`, `TypeError`, `AttributeError` and `IndexError` Python raises for
a missing dict key, a non-iterable or wrongly-typed operand, a term mapping
without `.items`, and an out-of-range document index.  `unmodelled` is not an
exception: it marks snapshots the source loads successfully into registries
keyed by, or holding sets of, non-string docnames — states this `Store` type
cannot represent.  No theorem below reads `unmodelled` as a Python error. -/
inductive LoadErr where
  | format
  | key
  | typeErr
  | attr
  | index
  | unmodelled
deriving DecidableEq

/-- Shape helper for the well-formedness predicate `snapshotOk` below (not
part of the `load` model itself, which accepts any iterable). -/
def asList : PyVal → Option (List PyVal)
  | .list xs => some xs
  | _ => none

/-- Shape helper for `snapshotOk`: a list value all of whose entries are
strings, as `freeze` always writes for `docnames`. -/
def strListOf : List PyVal → Option (List String)
  | [] => some []
  | .str s :: rest => (strListOf rest).map (fun l => s :: l)
  | _ => none

/-- The version guard of `load` (builder.py lines 67-69):
`frozen.get('envversion') != self.env.version`. -/
def versionOk (ver : String) (kvs : List (String × PyVal)) : Bool :=
  match dlookup kvs "envversion" with
  | some (.str s) => s = ver
  | _ => false

/-- Python iteration as `zip` and the set comprehension perform it: a list
yields its elements, a string its characters, a dict its keys; `None` and
integers are not iterable (`TypeError`). -/
def pyIter : PyVal → Option (List PyVal)
  | .list xs => some xs
  | .str s => some (s.data.map (fun c => .str (String.mk [c])))
  | .dict d => some (d.map (fun kv => .str kv.1))
  | _ => none

/-- The keys `dict(zip(...))` would use: `some` the pairs when every zipped
key is a string, `none` when Python would build a dict keyed by a non-string
value (a store outside this model). -/
def strPairs : List (PyVal × PyVal) → Option (List (String × PyVal))
  | [] => some []
  | (.str k, v) :: rest => (strPairs rest).map (fun r => (k, v) :: r)
  | _ => none

/-- One `index2fn[x]` subscript (builder.py lines 78 and 80), for every shape
the docnames object can have: list and string indexing raise `TypeError` on a
non-integer subscript and `IndexError` out of range (negative indices count
from the end); dict subscription — string-keyed in this value model — raises
`KeyError` for an absent or non-string hashable key and `TypeError` for an
unhashable one; anything else is not subscriptable. -/
def pyIndexVal (dn : PyVal) (x : PyVal) : Except LoadErr PyVal :=
  match dn, x with
  | .list xs, .int i =>
      match pyIndex xs i with
      | some v => .ok v
      | Option.none => .error .index
  | .list _, _ => .error .typeErr
  | .str s, .int i =>
      match pyIndex s.data i with
      | some c => .ok (.str (String.mk [c]))
      | Option.none => .error .index
  | .str _, _ => .error .typeErr
  | .dict d, .str k =>
      match dlookup d k with
      | some v => .ok v
      | Option.none => .error .key
  | .dict _, .int _ => .error .key
  | .dict _, .none => .error .key
  | .dict _, _ => .error .typeErr
  | _, _ => .error .typeErr

/-- The set comprehension `{index2fn[i] for i in v}` evaluated left to right:
the accumulator stays `some` (with Python-set insertion semantics) while
every member is a string and turns `none` once a non-string member appears —
Python carries on either way, so a later subscript exception still aborts the
whole comprehension. -/
def loadSetAux (dn : PyVal) : Option (List String) → List PyVal →
    Except LoadErr (Option (List String))
  | acc, [] => .ok acc
  | acc, x :: xs =>
      match pyIndexVal dn x with
      | .error e => .error e
      | .ok v =>
          match acc, v with
          | some l, .str s => loadSetAux dn (some (sadd l s)) xs
          | _, _ => loadSetAux dn Option.none xs

/-- One value of a frozen term mapping (builder.py lines 76-80): an integer
is a scalar document index (`{index2fn[v]}`, a singleton set), anything else
is iterated as the set comprehension (`TypeError` when not iterable). -/
def loadTermVal (dn : PyVal) : PyVal → Except LoadErr (Option (List String))
  | .int i =>
      match pyIndexVal dn (.int i) with
      | .error e => .error e
      | .ok (.str s) => .ok (some [s])
      | .ok _ => .ok Option.none
  | v =>
      match pyIter v with
      | some es => loadSetAux dn (some []) es
      | Option.none => .error .typeErr

/-- The `load_terms` loop (builder.py lines 74-81) over the items of a frozen
term mapping, building `rv` in iteration order; a value's exception aborts
the loop, and a set holding a non-string member poisons the result (assigning
it would leave the model). -/
def loadTermItems (dn : PyVal) : List (String × PyVal) →
    Except LoadErr (Option (List (String × List String)))
  | [] => .ok (some [])
  | (k, v) :: rest =>
      match loadTermVal dn v with
      | .error e => .error e
      | .ok ov =>
          match loadTermItems dn rest with
          | .error e => .error e
          | .ok orest =>
              .ok (match ov, orest with
                   | some s, some r => some ((k, s) :: r)
                   | _, _ => Option.none)

/-- Model of the `load_terms` closure applied to one snapshot field: only a
dict has `.items()`; any other value raises `AttributeError`. -/
def load_terms (dn : PyVal) : PyVal →
    Except LoadErr (Option (List (String × List String)))
  | .dict entries => loadTermItems dn entries
  | _ => .error .attr

/-- Model of `IndexBuilder.load` (builder.py lines 61-84).  Returns the store
after the call together with the exception raised, if any: assignments made
before a later field fails are kept, exactly as in the source (the order is
`_filenames`, `_titles`, `_mapping`, `_title_mapping`).  Python checks no
shapes beyond what its operations require: each field lookup can raise
`KeyError`, `zip` accepts any iterable of any two lengths (truncating to the
shorter, so string or dict fields load), and the term loop subscripts the raw
docnames object.  `unmodelled` marks the loads that succeed in Python with
non-string docnames; see `LoadErr`.  The stream and format arguments are
outside the model: `frozen` is the already-decoded snapshot value. -/
def load (ver : String) (st : Store) (frozen : PyVal) : Store × Option LoadErr :=
  match frozen with
  | .dict kvs =>
      if versionOk ver kvs then
        match dlookup kvs "docnames" with
        | Option.none => (st, some .key)
        | some dn =>
            match dlookup kvs "filenames" with
            | Option.none => (st, some .key)
            | some fv =>
                match pyIter dn with
                | Option.none => (st, some .typeErr)
                | some dns =>
                    match pyIter fv with
                    | Option.none => (st, some .typeErr)
                    | some fxs =>
                        match strPairs (dns.zip fxs) with
                        | Option.none => (st, some .unmodelled)
                        | some fpairs =>
                            let st1 : Store :=
                              { st with filenames := dictFromPairs fpairs }
                            match dlookup kvs "titles" with
                            | Option.none => (st1, some .key)
                            | some tv =>
                                match pyIter tv with
                                | Option.none => (st1, some .typeErr)
                                | some txs =>
                                    match strPairs (dns.zip txs) with
                                    | Option.none => (st1, some .unmodelled)
                                    | some tpairs =>
                                        let st2 : Store :=
                                          { st1 with titles := dictFromPairs tpairs }
                                        match dlookup kvs "terms" with
                                        | Option.none => (st2, some .key)
                                        | some mv =>
                                            match load_terms dn mv with
                                            | .error e => (st2, some e)
                                            | .ok Option.none => (st2, some .unmodelled)
                                            | .ok (some m) =>
                                                let st3 : Store := { st2 with mapping := m }
                                                match dlookup kvs "titleterms" with
                                                | Option.none => (st3, some .key)
                                                | some ttv =>
                                                    match load_terms dn ttv with
                                                    | .error e => (st3, some e)
                                                    | .ok Option.none => (st3, some .unmodelled)
                                                    | .ok (some tm) =>
                                                        ({ st3 with title_mapping := tm },
                                                          Option.none)
      else (st, some .format)
  | _ => (st, some .format)

/-! ## Merge of parallel partial stores -/

inductive MergeErr where
  | overlap
deriving DecidableEq

def setUnion (s t : List String) : List String := t.foldl sadd s

def unionMaps (m1 m2 : List (String × List String)) : List (String × List String) :=
  m2.foldl (fun acc kv => dinsert acc kv.1 (setUnion ((dlookup acc kv.1).getD []) kv.2)) m1

/-- Modelled from the spec: builder.py defines no merge operation (the spec's
§4.3 `merge(other_store_partial_data)` has no implementation under src/).
Per the spec, each worker docname's contribution extends the coordinator's
state, worker outputs are assumed disjoint by docname, and overlapping
docnames must be flagged as a caller-contract violation rather than silently
merged. -/
def merge (a b : Store) : Except MergeErr Store :=
  if (dkeys b.titles).any (fun d => decide (d ∈ dkeys a.titles)) then .error .overlap
  else
    .ok
      { titles := a.titles ++ b.titles
        filenames := a.filenames ++ b.filenames
        mapping := unionMaps a.mapping b.mapping
        title_mapping := unionMaps a.title_mapping b.title_mapping
        stem_cache := a.stem_cache }

/-! ## A small concrete language ruleset for witnesses -/

/-- A minimal concrete ruleset (whitespace splitter, drop a trailing `s` when
stemming, keep words of three or more characters), used to instantiate the
universally quantified theorems at concrete inputs. -/
def demoLang : SearchLang :=
  { lang := "en"
    split := splitWs
    stem := fun w =>
      match w.data.reverse with
      | 's' :: rest => String.mk rest.reverse
      | _ => w
    word_filter := fun w => decide (3 ≤ w.data.length) }

/-! ## Lemmas about the dictionary and set models -/

theorem dlookup_dinsert_self {α : Type} (d : List (String × α)) (k : String) (v : α) :
    dlookup (dinsert d k v) k = some v := by
  induction d with
  | nil => simp [dinsert, dlookup]
  | cons kv rest ih =>
      obtain ⟨k', v'⟩ := kv
      by_cases h : k' = k <;> simp [dinsert, dlookup, h, ih]

theorem dlookup_dinsert_ne {α : Type} (d : List (String × α)) {k k' : String} (v : α)
    (h : k' ≠ k) : dlookup (dinsert d k v) k' = dlookup d k' := by
  induction d with
  | nil =>
      simp only [dinsert, dlookup]
      rw [if_neg (fun hh => h hh.symm)]
  | cons kv rest ih =>
      obtain ⟨k0, v0⟩ := kv
      simp only [dinsert]
      by_cases h0 : k0 = k
      · rw [if_pos h0]
        subst h0
        simp only [dlookup]
        rw [if_neg (fun hh => h hh.symm), if_neg (fun hh => h hh.symm)]
      · rw [if_neg h0]
        simp only [dlookup]
        by_cases h1 : k0 = k'
        · rw [if_pos h1, if_pos h1]
        · rw [if_neg h1, if_neg h1, ih]

theorem dinsert_same {α : Type} {d : List (String × α)} {k : String} {v : α}
    (h : dlookup d k = some v) : dinsert d k v = d := by
  induction d with
  | nil => simp [dlookup] at h
  | cons kv rest ih =>
      obtain ⟨k0, v0⟩ := kv
      by_cases h0 : k0 = k
      · subst h0
        simp [dlookup] at h
        simp [dinsert, h]
      · simp [dlookup, h0] at h
        simp [dinsert, h0, ih h]

theorem mem_dkeys_iff_isSome {α : Type} (d : List (String × α)) (k : String) :
    k ∈ dkeys d ↔ (dlookup d k).isSome := by
  induction d with
  | nil => simp [dkeys, dlookup]
  | cons kv rest ih =>
      obtain ⟨k0, v0⟩ := kv
      simp only [dkeys, List.map_cons, List.mem_cons, dlookup] at ih ⊢
      by_cases h0 : k0 = k
      · subst h0; simp
      · rw [if_neg h0]
        constructor
        · rintro (hh | hm)
          · exact absurd hh.symm h0
          · exact ih.mp hm
        · intro hs
          exact Or.inr (ih.mpr hs)

theorem dkeys_dinsert_mem {α : Type} {d : List (String × α)} {k : String} (v : α)
    (h : k ∈ dkeys d) : dkeys (dinsert d k v) = dkeys d := by
  induction d with
  | nil => simp [dkeys] at h
  | cons kv rest ih =>
      obtain ⟨k0, v0⟩ := kv
      simp only [dinsert]
      by_cases h0 : k0 = k
      · rw [if_pos h0]
        simp [dkeys, h0]
      · rw [if_neg h0]
        have hcons : dkeys ((k0, v0) :: rest) = k0 :: dkeys rest := rfl
        rw [hcons] at h
        rcases List.mem_cons.mp h with hh | hm
        · exact absurd hh.symm h0
        · show k0 :: dkeys (dinsert rest k v) = dkeys ((k0, v0) :: rest)
          rw [hcons, ih hm]

theorem dkeys_dinsert_new {α : Type} {d : List (String × α)} {k : String} (v : α)
    (h : k ∉ dkeys d) : dkeys (dinsert d k v) = dkeys d ++ [k] := by
  induction d with
  | nil => simp [dinsert, dkeys]
  | cons kv rest ih =>
      obtain ⟨k0, v0⟩ := kv
      have hcons : dkeys ((k0, v0) :: rest) = k0 :: dkeys rest := rfl
      rw [hcons] at h
      have h1 : ¬ k = k0 := fun hh => h (hh ▸ List.mem_cons_self _ _)
      have h2 : k ∉ dkeys rest := fun hm => h (List.mem_cons_of_mem _ hm)
      simp only [dinsert]
      rw [if_neg (fun hh : k0 = k => h1 hh.symm)]
      show k0 :: dkeys (dinsert rest k v) = dkeys ((k0, v0) :: rest) ++ [k]
      rw [hcons, ih h2]
      rfl

theorem dinsert_append_new {α : Type} {d : List (String × α)} {k : String} (v : α)
    (h : k ∉ dkeys d) : dinsert d k v = d ++ [(k, v)] := by
  induction d with
  | nil => simp [dinsert]
  | cons kv rest ih =>
      obtain ⟨k0, v0⟩ := kv
      have hcons : dkeys ((k0, v0) :: rest) = k0 :: dkeys rest := rfl
      rw [hcons] at h
      have h1 : ¬ k = k0 := fun hh => h (hh ▸ List.mem_cons_self _ _)
      have h2 : k ∉ dkeys rest := fun hm => h (List.mem_cons_of_mem _ hm)
      simp only [dinsert]
      rw [if_neg (fun hh : k0 = k => h1 hh.symm), ih h2]
      rfl

theorem dlookup_map_values {α β : Type} (d : List (String × α)) (f : α → β)
    (k : String) :
    dlookup (d.map (fun kv => (kv.1, f kv.2))) k = (dlookup d k).map f := by
  induction d with
  | nil => simp [dlookup]
  | cons kv rest ih =>
      obtain ⟨k0, v0⟩ := kv
      by_cases h0 : k0 = k <;> simp [dlookup, h0, ih]

theorem dkeys_map_values {α β : Type} (d : List (String × α)) (f : α → β) :
    dkeys (d.map (fun kv => (kv.1, f kv.2))) = dkeys d := by
  induction d with
  | nil => rfl
  | cons kv rest ih => simpa [dkeys] using ih

/-- The first of two optional values, as association-list append resolves
lookups. -/
def dfirst {α : Type} (x y : Option α) : Option α :=
  match x with
  | some v => some v
  | Option.none => y

theorem dlookup_append {α : Type} (d1 d2 : List (String × α)) (k : String) :
    dlookup (d1 ++ d2) k = dfirst (dlookup d1 k) (dlookup d2 k) := by
  induction d1 with
  | nil => simp [dlookup, dfirst]
  | cons kv rest ih =>
      obtain ⟨k0, v0⟩ := kv
      by_cases h0 : k0 = k <;> simp [dlookup, dfirst, h0, ih]

theorem mem_sadd {s : List String} {x y : String} :
    x ∈ sadd s y ↔ x = y ∨ x ∈ s := by
  by_cases h : y ∈ s
  · rw [sadd, if_pos h]
    constructor
    · exact Or.inr
    · rintro (rfl | hx)
      · exact h
      · exact hx
  · rw [sadd, if_neg h]
    simp [or_comm]

theorem sadd_mem {s : List String} {y : String} (h : y ∈ s) : sadd s y = s := by
  simp [sadd, h]

theorem sinsert_perm {α : Type} (le : α → α → Bool) (x : α) (l : List α) :
    (sinsert le x l).Perm (x :: l) := by
  induction l with
  | nil => simp [sinsert]
  | cons y ys ih =>
      simp only [sinsert]
      by_cases h : le x y
      · rw [if_pos h]
      · rw [if_neg h]
        exact (ih.cons y).trans (List.Perm.swap x y ys)

theorem insSortBy_perm {α : Type} (le : α → α → Bool) (l : List α) :
    (insSortBy le l).Perm l := by
  induction l with
  | nil => simp [insSortBy]
  | cons x xs ih =>
      simp only [insSortBy]
      exact (sinsert_perm le x (insSortBy le xs)).trans (ih.cons x)

theorem nodupKeys_perm {α : Type} {l1 l2 : List (String × α)} (p : l1.Perm l2)
    (h : NodupKeys l1) : NodupKeys l2 :=
  (List.Perm.nodup_iff (p.map Prod.fst)).mp h

theorem nodupKeys_tail {α : Type} {kv : String × α} {l : List (String × α)}
    (h : NodupKeys (kv :: l)) : NodupKeys l := by
  simp only [NodupKeys, dkeys, List.map_cons, List.nodup_cons] at h
  exact h.2

theorem dlookup_perm {α : Type} {l1 l2 : List (String × α)} (p : l1.Perm l2)
    (h : NodupKeys l1) (k : String) : dlookup l1 k = dlookup l2 k := by
  induction p with
  | nil => rfl
  | cons x _ ih =>
      obtain ⟨k0, v0⟩ := x
      simp only [dlookup]
      by_cases h0 : k0 = k
      · rw [if_pos h0, if_pos h0]
      · rw [if_neg h0, if_neg h0]
        exact ih (nodupKeys_tail h)
  | swap x y l =>
      obtain ⟨kx, vx⟩ := x
      obtain ⟨ky, vy⟩ := y
      have hne : ky ≠ kx := by
        simp only [NodupKeys, dkeys, List.map_cons, List.nodup_cons, List.mem_cons] at h
        exact fun hh => h.1 (Or.inl hh)
      simp only [dlookup]
      by_cases hy : ky = k
      · rw [if_pos hy, if_neg (hy ▸ hne.symm), if_pos hy]
      · by_cases hx : kx = k
        · rw [if_neg hy, if_pos hx, if_pos hx]
        · rw [if_neg hy, if_neg hx, if_neg hx, if_neg hy]
  | trans p1 _ ih1 ih2 =>
      exact (ih1 h).trans (ih2 (nodupKeys_perm p1 h))

theorem dkeys_append {α : Type} (a b : List (String × α)) :
    dkeys (a ++ b) = dkeys a ++ dkeys b := by
  simp [dkeys]

theorem foldl_dinsert_disjoint {α : Type} {pairs : List (String × α)}
    (hn : NodupKeys pairs) :
    ∀ acc : List (String × α), (∀ k, k ∈ dkeys pairs → k ∉ dkeys acc) →
      pairs.foldl (fun acc kv => dinsert acc kv.1 kv.2) acc = acc ++ pairs := by
  induction pairs with
  | nil => intro acc _; simp
  | cons kv rest ih =>
      intro acc hd
      obtain ⟨k0, v0⟩ := kv
      have hk0 : k0 ∉ dkeys acc := hd k0 (by simp [dkeys])
      have hr : NodupKeys rest := nodupKeys_tail hn
      have hk0r : k0 ∉ dkeys rest := by
        simp only [NodupKeys, dkeys, List.map_cons, List.nodup_cons] at hn
        exact hn.1
      simp only [List.foldl_cons]
      rw [dinsert_append_new v0 hk0]
      rw [ih hr (acc ++ [(k0, v0)]) ?hdisj]
      · simp
      case hdisj =>
        intro k hk
        rw [dkeys_append]
        simp only [List.mem_append]
        push_neg
        constructor
        · exact hd k (List.mem_cons_of_mem _ hk)
        · simp [dkeys]
          intro hh
          exact absurd (hh ▸ hk) hk0r

theorem dictFromPairs_eq_self {α : Type} {pairs : List (String × α)}
    (h : NodupKeys pairs) : dictFromPairs pairs = pairs := by
  have := foldl_dinsert_disjoint h [] (by simp [dkeys])
  simpa [dictFromPairs] using this

theorem zip_map_fst_snd {α β : Type} (l : List (α × β)) :
    (l.map Prod.fst).zip (l.map Prod.snd) = l := by
  induction l with
  | nil => rfl
  | cons x xs ih => simp [ih]

theorem strListOf_map_str (xs : List String) :
    strListOf (xs.map PyVal.str) = some xs := by
  induction xs with
  | nil => rfl
  | cons x xs ih => simp [strListOf, ih]

theorem dlookup_enumPairs {xs : List String} {k : String} {j : Int} :
    ∀ {i : Int}, dlookup (enumPairs i xs) k = some j →
      ∃ n : Nat, j = i + n ∧ xs.get? n = some k := by
  induction xs with
  | nil => intro i h; simp [enumPairs, dlookup] at h
  | cons x xs ih =>
      intro i h
      simp only [enumPairs, dlookup] at h
      by_cases h0 : x = k
      · rw [if_pos h0] at h
        cases h
        exact ⟨0, by simp, by simp [h0]⟩
      · rw [if_neg h0] at h
        obtain ⟨n, hj, hg⟩ := ih h
        exact ⟨n + 1, by omega, by simpa using hg⟩

theorem enumPairs_isSome {xs : List String} {k : String} (h : k ∈ xs) (i : Int) :
    (dlookup (enumPairs i xs) k).isSome := by
  induction xs generalizing i with
  | nil => simp at h
  | cons x xs ih =>
      simp only [enumPairs, dlookup]
      by_cases h0 : x = k
      · rw [if_pos h0]; rfl
      · rw [if_neg h0]
        rcases List.mem_cons.mp h with hh | hm
        · exact absurd hh.symm h0
        · exact ih hm (i + 1)

theorem enumPairs_pyIndex {xs : List String} {k : String} {j : Int}
    (h : dlookup (enumPairs 0 xs) k = some j) : pyIndex xs j = some k := by
  obtain ⟨n, hj, hg⟩ := dlookup_enumPairs h
  have h1 : j = (n : Int) := by omega
  subst h1
  show pyIndex xs (Int.ofNat n) = some k
  simpa [pyIndex] using hg

theorem mem_setUnion {t : List String} :
    ∀ {s : List String} {x : String}, x ∈ setUnion s t ↔ x ∈ s ∨ x ∈ t := by
  induction t with
  | nil => intro s x; simp [setUnion]
  | cons y ys ih =>
      intro s x
      show x ∈ setUnion (sadd s y) ys ↔ _
      rw [ih, mem_sadd]
      simp only [List.mem_cons]
      tauto

theorem dlookup_eq_none_of_not_mem {α : Type} {d : List (String × α)} {k : String}
    (h : k ∉ dkeys d) : dlookup d k = Option.none := by
  cases hd : dlookup d k with
  | none => rfl
  | some v =>
      exact absurd ((mem_dkeys_iff_isSome d k).mpr (by simp [hd])) h

theorem unionMaps_mem {m2 : List (String × List String)} :
    ∀ {m1 : List (String × List String)}, NodupKeys m2 → ∀ t d,
      (d ∈ (dlookup (unionMaps m1 m2) t).getD [] ↔
        d ∈ (dlookup m1 t).getD [] ∨ d ∈ (dlookup m2 t).getD []) := by
  induction m2 with
  | nil => intro m1 _ t d; simp [unionMaps, dlookup]
  | cons kv rest ih =>
      intro m1 hn t d
      obtain ⟨k, v⟩ := kv
      have step : unionMaps m1 ((k, v) :: rest) =
          unionMaps (dinsert m1 k (setUnion ((dlookup m1 k).getD []) v)) rest := rfl
      rw [step, ih (nodupKeys_tail hn) t d]
      by_cases hk : k = t
      · subst hk
        rw [dlookup_dinsert_self]
        have hrest : dlookup rest k = Option.none := by
          apply dlookup_eq_none_of_not_mem
          simp only [NodupKeys, dkeys, List.map_cons, List.nodup_cons] at hn
          exact hn.1
        simp only [dlookup, if_pos rfl, hrest]
        simp [mem_setUnion]
      · rw [dlookup_dinsert_ne _ _ (fun hh => hk hh.symm)]
        simp only [dlookup]
        rw [if_neg hk]

/-! ## Claim theorems -/

/-- C10: on a store into which no document has ever been fed (empty title
registry), `freeze` raises rather than returning an empty snapshot: the
unpacking `docnames, titles = zip(*sorted(self._titles.items()))` fails on
the empty registry, so `freeze` is partial at the public interface. -/
theorem freeze_empty_store_fails (ver : String)
    (getObjects : List (String × Int) → PyVal × PyVal × PyVal) (st : Store)
    (h : st.titles = []) : freeze ver getObjects st = Option.none := by
  simp [freeze, h, insSortBy]

theorem freeze_empty_store_fails_witness :
    emptyStore.titles = [] ∧
      freeze "v" (fun _ => (PyVal.none, PyVal.none, PyVal.none)) emptyStore
        = Option.none :=
  ⟨rfl, freeze_empty_store_fails "v" (fun _ => (PyVal.none, PyVal.none, PyVal.none))
    emptyStore rfl⟩

/-- C5: `TextNormalizer` resolution is total (a Lean function, so it never
raises) and deterministic; an exactly-registered code resolves to its
ruleset; an unregistered code containing a locale separator falls back to
the code truncated at the first `_`; if that is also unregistered — or the
code has no separator — it resolves to the default English ruleset. -/
theorem resolveLang_spec (registry : List (String × SearchLang))
    (english : SearchLang) (code : String) :
    (∀ c, dlookup registry code = some c → resolveLang registry english code = c)
    ∧ (dlookup registry code = Option.none → '_' ∈ code.data →
        (∀ c, dlookup registry (baseCode code) = some c →
            resolveLang registry english code = c)
        ∧ (dlookup registry (baseCode code) = Option.none →
            resolveLang registry english code = english))
    ∧ (dlookup registry code = Option.none → '_' ∉ code.data →
        resolveLang registry english code = english) := by
  refine ⟨?_, ?_, ?_⟩
  · intro c h
    simp [resolveLang, h]
  · intro h hm
    constructor
    · intro c h2
      simp [resolveLang, h, hm, h2]
    · intro h2
      simp [resolveLang, h, hm, h2]
  · intro h hm
    simp [resolveLang, h, hm]

theorem resolveLang_spec_witness :
    resolveLang [("en", demoLang)] demoLang "xx_YY" = demoLang :=
  ((resolveLang_spec [("en", demoLang)] demoLang "xx_YY").2.1 rfl (by decide)).2 rfl

/-- C7: merging two partial stores with disjoint fed docnames yields the
union of registries and term mappings; stores sharing a docname are rejected
with a contract-violation error instead of being silently merged.
The merge operation is modelled from the spec (no implementation exists
under src/); see `merge`. -/
theorem merge_spec (a b : Store) (hn2 : NodupKeys b.mapping)
    (hn2t : NodupKeys b.title_mapping) :
    ((∃ d, d ∈ dkeys b.titles ∧ d ∈ dkeys a.titles) →
        merge a b = Except.error MergeErr.overlap)
    ∧ ((∀ d, d ∈ dkeys b.titles → d ∉ dkeys a.titles) →
        ∃ st', merge a b = Except.ok st'
          ∧ (∀ k, dlookup st'.titles k =
              dfirst (dlookup a.titles k) (dlookup b.titles k))
          ∧ (∀ k, dlookup st'.filenames k =
              dfirst (dlookup a.filenames k) (dlookup b.filenames k))
          ∧ (∀ t d, d ∈ (dlookup st'.mapping t).getD [] ↔
              d ∈ (dlookup a.mapping t).getD [] ∨ d ∈ (dlookup b.mapping t).getD [])
          ∧ (∀ t d, d ∈ (dlookup st'.title_mapping t).getD [] ↔
              d ∈ (dlookup a.title_mapping t).getD []
                ∨ d ∈ (dlookup b.title_mapping t).getD [])) := by
  constructor
  · rintro ⟨d, hb, ha⟩
    have hc : (dkeys b.titles).any (fun d => decide (d ∈ dkeys a.titles)) = true := by
      rw [List.any_eq_true]
      exact ⟨d, hb, by simpa⟩
    simp [merge, hc]
  · intro hdisj
    have hc : (dkeys b.titles).any (fun d => decide (d ∈ dkeys a.titles)) = false := by
      rw [List.any_eq_false]
      intro d hd
      simpa using hdisj d hd
    refine ⟨⟨a.titles ++ b.titles, a.filenames ++ b.filenames,
      unionMaps a.mapping b.mapping, unionMaps a.title_mapping b.title_mapping,
      a.stem_cache⟩, ?_, ?_, ?_, ?_, ?_⟩
    · simp [merge, hc]
    · intro k
      show dlookup (a.titles ++ b.titles) k = _
      exact dlookup_append _ _ k
    · intro k
      show dlookup (a.filenames ++ b.filenames) k = _
      exact dlookup_append _ _ k
    · intro t d
      show d ∈ (dlookup (unionMaps a.mapping b.mapping) t).getD [] ↔ _
      exact unionMaps_mem hn2 t d
    · intro t d
      show d ∈ (dlookup (unionMaps a.title_mapping b.title_mapping) t).getD [] ↔ _
      exact unionMaps_mem hn2t t d

theorem merge_spec_witness :
    ∃ st', merge ⟨[("d1", .str "T1")], [("d1", .str "F1")], [("w", ["d1"])], [], []⟩
        ⟨[("d2", .str "T2")], [("d2", .str "F2")], [("w", ["d2"])], [], []⟩
      = Except.ok st'
    ∧ ("d1" ∈ (dlookup st'.mapping "w").getD [] ∧ "d2" ∈ (dlookup st'.mapping "w").getD []) := by
  obtain ⟨st', hok, ht, hf, hm, htm⟩ :=
    (merge_spec ⟨[("d1", .str "T1")], [("d1", .str "F1")], [("w", ["d1"])], [], []⟩
      ⟨[("d2", .str "T2")], [("d2", .str "F2")], [("w", ["d2"])], [], []⟩
      (by decide) (by decide)).2 (by decide)
  exact ⟨st', hok, (hm "w" "d1").mpr (Or.inl (by decide)),
    (hm "w" "d2").mpr (Or.inr (by decide))⟩

theorem pruneRegs_some (st : Store)
    (hKF : ∀ x, (dlookup st.titles x).isSome → (dlookup st.filenames x).isSome)
    (keep : List String) :
    ∀ acc : List (String × PyVal) × List (String × PyVal),
      ∃ r, pruneRegs st keep acc = some r
        ∧ (∀ x, dlookup r.1 x =
            if x ∈ keep ∧ (dlookup st.titles x).isSome then dlookup st.titles x
            else dlookup acc.1 x)
        ∧ (∀ x, dlookup r.2 x =
            if x ∈ keep ∧ (dlookup st.titles x).isSome then dlookup st.filenames x
            else dlookup acc.2 x) := by
  induction keep with
  | nil =>
      intro acc
      refine ⟨acc, rfl, fun x => ?_, fun x => ?_⟩ <;>
        · rw [if_neg]
          rintro ⟨hm, _⟩
          simp at hm
  | cons d rest ih =>
      intro acc
      cases ht : dlookup st.titles d with
      | none =>
          obtain ⟨r, hr, h1, h2⟩ := ih acc
          have hiff : ∀ x, (x ∈ rest ∧ (dlookup st.titles x).isSome) ↔
              (x ∈ d :: rest ∧ (dlookup st.titles x).isSome) := by
            intro x
            constructor
            · rintro ⟨hm, hs⟩
              exact ⟨List.mem_cons_of_mem _ hm, hs⟩
            · rintro ⟨hm, hs⟩
              rcases List.mem_cons.mp hm with rfl | hm'
              · rw [ht] at hs; simp at hs
              · exact ⟨hm', hs⟩
          refine ⟨r, ?_, fun x => ?_, fun x => ?_⟩
          · simpa [pruneRegs, ht] using hr
          · rw [h1 x, if_congr (hiff x) rfl rfl]
          · rw [h2 x, if_congr (hiff x) rfl rfl]
      | some tv =>
          have hf : (dlookup st.filenames d).isSome := hKF d (by simp [ht])
          cases hfv : dlookup st.filenames d with
          | none => rw [hfv] at hf; simp at hf
          | some fv =>
              obtain ⟨r, hr, h1, h2⟩ := ih (dinsert acc.1 d tv, dinsert acc.2 d fv)
              refine ⟨r, ?_, fun x => ?_, fun x => ?_⟩
              · simpa [pruneRegs, ht, hfv] using hr
              · rw [h1 x]
                by_cases hsx : x ∈ rest ∧ (dlookup st.titles x).isSome
                · rw [if_pos hsx, if_pos ⟨List.mem_cons_of_mem _ hsx.1, hsx.2⟩]
                · rw [if_neg hsx]
                  by_cases hxd : x = d
                  · subst hxd
                    show dlookup (dinsert acc.1 x tv) x = _
                    rw [dlookup_dinsert_self,
                      if_pos ⟨List.mem_cons_self _ _, by simp [ht]⟩, ht]
                  · show dlookup (dinsert acc.1 d tv) x = _
                    rw [dlookup_dinsert_ne _ _ hxd, if_neg ?hneg]
                    case hneg =>
                      rintro ⟨hm, hs⟩
                      rcases List.mem_cons.mp hm with rfl | hm'
                      · exact hxd rfl
                      · exact hsx ⟨hm', hs⟩
              · rw [h2 x]
                by_cases hsx : x ∈ rest ∧ (dlookup st.titles x).isSome
                · rw [if_pos hsx, if_pos ⟨List.mem_cons_of_mem _ hsx.1, hsx.2⟩]
                · rw [if_neg hsx]
                  by_cases hxd : x = d
                  · subst hxd
                    show dlookup (dinsert acc.2 x fv) x = _
                    rw [dlookup_dinsert_self,
                      if_pos ⟨List.mem_cons_self _ _, by simp [ht]⟩, hfv]
                  · show dlookup (dinsert acc.2 d fv) x = _
                    rw [dlookup_dinsert_ne _ _ hxd, if_neg ?hneg2]
                    case hneg2 =>
                      rintro ⟨hm, hs⟩
                      rcases List.mem_cons.mp hm with rfl | hm'
                      · exact hxd rfl
                      · exact hsx ⟨hm', hs⟩

/-- C3: after `prune(keep)`, no term of either mapping maps to a document
outside the keep set; the title and filename registries contain exactly the
previously registered documents that are in the keep set; the mapping keys
themselves are all retained, with each document set intersected with the
keep set.  The key-agreement hypotheses record that `_titles` and
`_filenames` are registered together (as `feed` and `load` always do);
without them the source would raise `KeyError`. -/
theorem prune_spec (st : Store) (keep : List String)
    (hTF : ∀ x ∈ dkeys st.titles, (dlookup st.filenames x).isSome)
    (hFT : ∀ x ∈ dkeys st.filenames, (dlookup st.titles x).isSome) :
    ∃ st', prune st keep = some st'
      ∧ (∀ t d, d ∈ (dlookup st'.mapping t).getD [] → d ∈ keep)
      ∧ (∀ t d, d ∈ (dlookup st'.title_mapping t).getD [] → d ∈ keep)
      ∧ (∀ x, dlookup st'.titles x =
          if x ∈ keep then dlookup st.titles x else Option.none)
      ∧ (∀ x, dlookup st'.filenames x =
          if x ∈ keep then dlookup st.filenames x else Option.none)
      ∧ dkeys st'.mapping = dkeys st.mapping
      ∧ dkeys st'.title_mapping = dkeys st.title_mapping
      ∧ (∀ t, dlookup st'.mapping t =
          (dlookup st.mapping t).map (fun v => v.filter (fun d => d ∈ keep)))
      ∧ (∀ t, dlookup st'.title_mapping t =
          (dlookup st.title_mapping t).map (fun v => v.filter (fun d => d ∈ keep))) := by
  have hKF : ∀ x, (dlookup st.titles x).isSome → (dlookup st.filenames x).isSome :=
    fun x hx => hTF x ((mem_dkeys_iff_isSome _ _).mpr hx)
  obtain ⟨r, hr, h1, h2⟩ := pruneRegs_some st hKF keep ([], [])
  obtain ⟨nt, nf⟩ := r
  have hmapMem : ∀ (m : List (String × List String)) t d,
      d ∈ (dlookup (pruneMap keep m) t).getD [] → d ∈ keep := by
    intro m t d hd
    rw [pruneMap, dlookup_map_values] at hd
    cases hm : dlookup m t with
    | none => rw [hm] at hd; simp at hd
    | some v =>
        rw [hm] at hd
        simp [List.mem_filter] at hd
        exact hd.2
  refine ⟨⟨nt, nf, pruneMap keep st.mapping, pruneMap keep st.title_mapping,
    st.stem_cache⟩, ?_, ?_, ?_, fun x => ?_, fun x => ?_, ?_, ?_, fun t => ?_,
    fun t => ?_⟩
  · show prune st keep = _
    rw [prune, hr]
  · exact hmapMem st.mapping
  · exact hmapMem st.title_mapping
  · show dlookup nt x = _
    rw [h1 x]
    by_cases hk : x ∈ keep
    · by_cases hs : (dlookup st.titles x).isSome
      · rw [if_pos ⟨hk, hs⟩, if_pos hk]
      · rw [if_neg (fun hh => hs hh.2), if_pos hk, dlookup]
        cases hl : dlookup st.titles x with
        | none => rfl
        | some v => rw [hl] at hs; simp at hs
    · rw [if_neg (fun hh => hk hh.1), if_neg hk, dlookup]
  · show dlookup nf x = _
    rw [h2 x]
    by_cases hk : x ∈ keep
    · by_cases hs : (dlookup st.titles x).isSome
      · rw [if_pos ⟨hk, hs⟩, if_pos hk]
      · rw [if_neg (fun hh => hs hh.2), if_pos hk, dlookup]
        cases hl : dlookup st.filenames x with
        | none => rfl
        | some v =>
            have := hFT x ((mem_dkeys_iff_isSome _ _).mpr (by simp [hl]))
            exact absurd this hs
    · rw [if_neg (fun hh => hk hh.1), if_neg hk, dlookup]
  · exact dkeys_map_values _ _
  · exact dkeys_map_values _ _
  · exact dlookup_map_values _ _ t
  · exact dlookup_map_values _ _ t

def pruneDemoStore : Store :=
  ⟨[("d1", PyVal.str "T1"), ("d2", PyVal.str "T2")],
    [("d1", PyVal.str "F1"), ("d2", PyVal.str "F2")],
    [("wid", ["d1", "d2"])], [("tw", ["d2"])], []⟩

theorem prune_spec_witness :
    ∃ st', prune pruneDemoStore ["d1"] = some st'
      ∧ (∀ t d, d ∈ (dlookup st'.mapping t).getD [] → d ∈ ["d1"])
      ∧ dlookup st'.titles "d2" = Option.none := by
  obtain ⟨st', h0, h1, _h2, h3, _⟩ :=
    prune_spec pruneDemoStore ["d1"] (by decide) (by decide)
  refine ⟨st', h0, h1, ?_⟩
  rw [h3 "d2", if_neg (by decide)]

/-! ## A dictionary membership lemma -/

theorem dlookup_mem {α : Type} {d : List (String × α)} {k : String} {v : α}
    (h : dlookup d k = some v) : (k, v) ∈ d := by
  induction d with
  | nil => simp [dlookup] at h
  | cons kv rest ih =>
      obtain ⟨k0, v0⟩ := kv
      simp only [dlookup] at h
      by_cases h0 : k0 = k
      · rw [if_pos h0] at h
        cases h
        exact h0 ▸ List.mem_cons_self _ _
      · rw [if_neg h0] at h
        exact List.mem_cons_of_mem _ (ih h)

/-! ## C6: when load raises and what it leaves behind -/

def idxOkB (index2fn : List String) : PyVal → Bool
  | .int i => (pyIndex index2fn i).isSome
  | _ => false

def termValOkB (index2fn : List String) : PyVal → Bool
  | .int i => (pyIndex index2fn i).isSome
  | .list xs => xs.all (idxOkB index2fn)
  | _ => false

def termsOkB (index2fn : List String) : PyVal → Bool
  | .dict es => es.all (fun kv => termValOkB index2fn kv.2)
  | _ => false

/-- A well-shaped snapshot, as `freeze` writes them: a dict with the expected
version tag, list-shaped `docnames` (of strings), `filenames` and `titles`,
and dict-shaped `terms`/`titleterms` whose values are in-range document
indices or lists thereof.  Sufficient for `load` to succeed; the source
checks none of it, so it is not necessary. -/
def snapshotOk (ver : String) : PyVal → Bool
  | .dict kvs =>
      versionOk ver kvs &&
        (match dlookup kvs "docnames" with
         | some dv =>
            (match (asList dv).bind strListOf with
             | some index2fn =>
                (match dlookup kvs "filenames" with
                 | some fv => (asList fv).isSome
                 | Option.none => false) &&
                (match dlookup kvs "titles" with
                 | some tv => (asList tv).isSome
                 | Option.none => false) &&
                (match dlookup kvs "terms" with
                 | some mv => termsOkB index2fn mv
                 | Option.none => false) &&
                (match dlookup kvs "titleterms" with
                 | some ttv => termsOkB index2fn ttv
                 | Option.none => false)
             | Option.none => false)
         | Option.none => false)
  | _ => false

theorem asList_some {v : PyVal} {xs : List PyVal} (h : asList v = some xs) :
    v = .list xs := by
  cases v with
  | list ys => cases h; rfl
  | none => cases h
  | int n => cases h
  | str s => cases h
  | dict es => cases h

theorem strListOf_some : ∀ {xs : List PyVal} {l : List String},
    strListOf xs = some l → xs = l.map PyVal.str := by
  intro xs
  induction xs with
  | nil =>
      intro l h
      simp only [strListOf, Option.some.injEq] at h
      subst h
      rfl
  | cons x rest ih =>
      intro l h
      cases x with
      | str s =>
          simp only [strListOf] at h
          cases hr : strListOf rest with
          | none => rw [hr] at h; cases h
          | some l' =>
              rw [hr] at h
              simp only [Option.map_some'] at h
              cases h
              simp [ih hr]
      | none => simp [strListOf] at h
      | int n => simp [strListOf] at h
      | list ys => simp [strListOf] at h
      | dict es => simp [strListOf] at h

theorem pyIndex_map {α β : Type} (f : α → β) (xs : List α) (i : Int) :
    pyIndex (xs.map f) i = (pyIndex xs i).map f := by
  unfold pyIndex
  cases i with
  | ofNat n => simp [List.get?_map]
  | negSucc n =>
      simp only [List.length_map]
      split
      · simp [List.get?_map]
      · rfl

theorem pyIndexVal_str_iff {index2fn : List String} {i : Int} {y : String} :
    pyIndexVal (.list (index2fn.map .str)) (.int i) = .ok (.str y)
      ↔ pyIndex index2fn i = some y := by
  cases h : pyIndex index2fn i with
  | none => simp [pyIndexVal, pyIndex_map, h]
  | some fn => simp [pyIndexVal, pyIndex_map, h]

theorem strPairs_zip_map (xs : List String) (vs : List PyVal) :
    strPairs ((xs.map PyVal.str).zip vs) = some (xs.zip vs) := by
  induction xs generalizing vs with
  | nil => rfl
  | cons x rest ih =>
      cases vs with
      | nil => rfl
      | cons v vrest =>
          show strPairs ((PyVal.str x, v) :: (rest.map PyVal.str).zip vrest)
            = some ((x, v) :: rest.zip vrest)
          simp only [strPairs, ih, Option.map_some']

theorem loadSetAux_decode (dn : PyVal) (xs : List PyVal)
    (h : ∀ x ∈ xs, ∃ fn, pyIndexVal dn x = .ok (.str fn)) :
    ∀ acc, ∃ w, loadSetAux dn (some acc) xs = .ok (some w)
      ∧ (∀ y, y ∈ w ↔ y ∈ acc ∨ ∃ x ∈ xs, pyIndexVal dn x = .ok (.str y)) := by
  induction xs with
  | nil =>
      intro acc
      exact ⟨acc, rfl, fun y => by simp⟩
  | cons x rest ih =>
      intro acc
      obtain ⟨fn, hfn⟩ := h x (List.mem_cons_self _ _)
      obtain ⟨w, hw, hmem⟩ := ih (fun x' hx' => h x' (List.mem_cons_of_mem _ hx'))
        (sadd acc fn)
      refine ⟨w, ?_, ?_⟩
      · simp only [loadSetAux, hfn]
        exact hw
      · intro y
        rw [hmem y, mem_sadd]
        constructor
        · rintro ((rfl | hacc) | ⟨x', hx', hy⟩)
          · exact Or.inr ⟨x, List.mem_cons_self _ _, hfn⟩
          · exact Or.inl hacc
          · exact Or.inr ⟨x', List.mem_cons_of_mem _ hx', hy⟩
        · rintro (hacc | ⟨x', hx', hy⟩)
          · exact Or.inl (Or.inr hacc)
          · rcases List.mem_cons.mp hx' with rfl | hx''
            · rw [hfn] at hy
              injection hy with hy2
              injection hy2 with hy3
              subst hy3
              exact Or.inl (Or.inl rfl)
            · exact Or.inr ⟨x', hx'', hy⟩

theorem pyIndexVal_not_format {dn x : PyVal} {e : LoadErr}
    (h : pyIndexVal dn x = .error e) : e ≠ LoadErr.format := by
  intro hc
  subst hc
  cases dn <;> cases x <;> simp only [pyIndexVal] at h <;>
    first
    | (cases h)
    | (injection h with h2; cases h2)
    | (split at h <;> first | (cases h) | (injection h with h2; cases h2))

theorem loadSetAux_not_format {dn : PyVal} {xs : List PyVal} :
    ∀ {acc : Option (List String)} {e : LoadErr},
      loadSetAux dn acc xs = .error e → e ≠ LoadErr.format := by
  induction xs with
  | nil => intro acc e h; cases h
  | cons x rest ih =>
      intro acc e h
      simp only [loadSetAux] at h
      cases hp : pyIndexVal dn x with
      | error e' =>
          rw [hp] at h
          injection h with h2
          subst h2
          exact pyIndexVal_not_format hp
      | ok v =>
          rw [hp] at h
          cases acc <;> cases v <;> exact ih h

theorem loadTermVal_not_format {dn v : PyVal} {e : LoadErr}
    (h : loadTermVal dn v = .error e) : e ≠ LoadErr.format := by
  cases v with
  | int i =>
      simp only [loadTermVal] at h
      cases hp : pyIndexVal dn (.int i) with
      | error e' =>
          rw [hp] at h
          injection h with h2
          subst h2
          exact pyIndexVal_not_format hp
      | ok w =>
          rw [hp] at h
          cases w <;> cases h
  | none =>
      simp only [loadTermVal, pyIter] at h
      injection h with h2
      subst h2
      decide
  | str s =>
      simp only [loadTermVal, pyIter] at h
      exact loadSetAux_not_format h
  | list xs =>
      simp only [loadTermVal, pyIter] at h
      exact loadSetAux_not_format h
  | dict es =>
      simp only [loadTermVal, pyIter] at h
      exact loadSetAux_not_format h

theorem loadTermItems_not_format {dn : PyVal} {es : List (String × PyVal)} :
    ∀ {e : LoadErr}, loadTermItems dn es = .error e → e ≠ LoadErr.format := by
  induction es with
  | nil => intro e h; cases h
  | cons kv rest ih =>
      intro e h
      obtain ⟨k, v⟩ := kv
      simp only [loadTermItems] at h
      cases hv : loadTermVal dn v with
      | error e' =>
          rw [hv] at h
          injection h with h2
          subst h2
          exact loadTermVal_not_format hv
      | ok ov =>
          rw [hv] at h
          cases hr : loadTermItems dn rest with
          | error e' =>
              rw [hr] at h
              injection h with h2
              subst h2
              exact ih hr
          | ok orest =>
              rw [hr] at h
              cases ov <;> cases orest <;> cases h

theorem load_terms_not_format {dn mv : PyVal} {e : LoadErr}
    (h : load_terms dn mv = .error e) : e ≠ LoadErr.format := by
  cases mv with
  | dict es => exact loadTermItems_not_format h
  | none => simp only [load_terms] at h; injection h with h2; subst h2; decide
  | int n => simp only [load_terms] at h; injection h with h2; subst h2; decide
  | str s => simp only [load_terms] at h; injection h with h2; subst h2; decide
  | list xs => simp only [load_terms] at h; injection h with h2; subst h2; decide

theorem idxOk_pyIndexVal {index2fn : List String} {x : PyVal}
    (h : idxOkB index2fn x = true) :
    ∃ fn, pyIndexVal (.list (index2fn.map .str)) x = .ok (.str fn) := by
  cases x with
  | int i =>
      simp only [idxOkB] at h
      obtain ⟨fn, hfn⟩ := Option.isSome_iff_exists.mp h
      exact ⟨fn, pyIndexVal_str_iff.mpr hfn⟩
  | none => simp [idxOkB] at h
  | str s => simp [idxOkB] at h
  | list ys => simp [idxOkB] at h
  | dict es => simp [idxOkB] at h

theorem loadTermVal_ok_of_okB {index2fn : List String} {v : PyVal}
    (h : termValOkB index2fn v = true) :
    ∃ w, loadTermVal (.list (index2fn.map .str)) v = .ok (some w) := by
  cases v with
  | int i =>
      simp only [termValOkB] at h
      obtain ⟨fn, hfn⟩ := Option.isSome_iff_exists.mp h
      have hpv := pyIndexVal_str_iff.mpr hfn
      exact ⟨[fn], by simp [loadTermVal, hpv]⟩
  | list xs =>
      simp only [termValOkB, List.all_eq_true] at h
      obtain ⟨w, hw, _⟩ := loadSetAux_decode (.list (index2fn.map .str)) xs
        (fun x hx => idxOk_pyIndexVal (h x hx)) []
      exact ⟨w, hw⟩
  | none => simp [termValOkB] at h
  | str s => simp [termValOkB] at h
  | dict es => simp [termValOkB] at h

theorem loadTermItems_ok_of_okB {index2fn : List String} :
    ∀ {es : List (String × PyVal)},
      es.all (fun kv => termValOkB index2fn kv.2) = true →
      ∃ m, loadTermItems (.list (index2fn.map .str)) es = .ok (some m) := by
  intro es
  induction es with
  | nil => intro _; exact ⟨[], rfl⟩
  | cons kv rest ih =>
      intro h
      obtain ⟨k, v⟩ := kv
      simp only [List.all_cons, Bool.and_eq_true] at h
      obtain ⟨w, hw⟩ := loadTermVal_ok_of_okB h.1
      obtain ⟨m, hm⟩ := ih h.2
      exact ⟨(k, w) :: m, by simp [loadTermItems, hw, hm]⟩

theorem load_terms_ok_of_okB {index2fn : List String} {mv : PyVal}
    (h : termsOkB index2fn mv = true) :
    ∃ m, load_terms (.list (index2fn.map .str)) mv = .ok (some m) := by
  cases mv with
  | dict es =>
      simp only [termsOkB] at h
      obtain ⟨m, hm⟩ := loadTermItems_ok_of_okB h
      exact ⟨m, hm⟩
  | none => simp [termsOkB] at h
  | int n => simp [termsOkB] at h
  | str s => simp [termsOkB] at h
  | list xs => simp [termsOkB] at h

theorem load_success_of_snapshotOk (ver : String) (st : Store) (frozen : PyVal)
    (h : snapshotOk ver frozen = true) : (load ver st frozen).2 = Option.none := by
  cases frozen with
  | none => simp [snapshotOk] at h
  | int n => simp [snapshotOk] at h
  | str s => simp [snapshotOk] at h
  | list xs => simp [snapshotOk] at h
  | dict kvs =>
      simp only [snapshotOk, Bool.and_eq_true] at h
      obtain ⟨hv, h⟩ := h
      cases hdoc : dlookup kvs "docnames" with
      | none => simp only [hdoc] at h; exact absurd h (by decide)
      | some dv =>
          simp only [hdoc] at h
          cases hsl : (asList dv).bind strListOf with
          | none => simp only [hsl] at h; exact absurd h (by decide)
          | some index2fn =>
              simp only [hsl, Bool.and_eq_true] at h
              obtain ⟨⟨⟨hfn, hti⟩, hte⟩, htt⟩ := h
              obtain ⟨xs, hal, hso⟩ : ∃ xs, asList dv = some xs
                  ∧ strListOf xs = some index2fn := by
                cases hal : asList dv with
                | none => rw [hal] at hsl; cases hsl
                | some xs => rw [hal] at hsl; exact ⟨xs, rfl, hsl⟩
              have hdv : dv = .list (index2fn.map .str) := by
                rw [asList_some hal, strListOf_some hso]
              cases hfl : dlookup kvs "filenames" with
              | none => simp only [hfl] at hfn; exact absurd hfn (by decide)
              | some fv =>
                  simp only [hfl] at hfn
                  obtain ⟨fxs, hfxs⟩ := Option.isSome_iff_exists.mp hfn
                  cases hfl2 : dlookup kvs "titles" with
                  | none => simp only [hfl2] at hti; exact absurd hti (by decide)
                  | some tv =>
                      simp only [hfl2] at hti
                      obtain ⟨txs, htxs⟩ := Option.isSome_iff_exists.mp hti
                      cases hte1 : dlookup kvs "terms" with
                      | none => simp only [hte1] at hte; exact absurd hte (by decide)
                      | some mv =>
                          simp only [hte1] at hte
                          cases htt1 : dlookup kvs "titleterms" with
                          | none => simp only [htt1] at htt; exact absurd htt (by decide)
                          | some ttv =>
                              simp only [htt1] at htt
                              obtain ⟨m, hm⟩ := load_terms_ok_of_okB hte
                              obtain ⟨tm, htm⟩ := load_terms_ok_of_okB htt
                              subst hdv
                              rw [asList_some hfxs] at hfl
                              rw [asList_some htxs] at hfl2
                              simp [load, hv, hdoc, hfl, hfl2, hte1, htt1,
                                pyIter, strPairs_zip_map, hm, htm]

theorem load_format_characterization (ver : String) (st : Store) (frozen : PyVal) :
    ((load ver st frozen).2 = some LoadErr.format ↔
      ¬ ∃ kvs, frozen = PyVal.dict kvs ∧ versionOk ver kvs = true)
    ∧ ((load ver st frozen).2 = some LoadErr.format → (load ver st frozen).1 = st) := by
  cases frozen with
  | none => exact ⟨by simp [load], fun _ => rfl⟩
  | int n => exact ⟨by simp [load], fun _ => rfl⟩
  | str s => exact ⟨by simp [load], fun _ => rfl⟩
  | list xs => exact ⟨by simp [load], fun _ => rfl⟩
  | dict kvs =>
      by_cases hv : versionOk ver kvs
      · have hex : ∃ kvs', PyVal.dict kvs = PyVal.dict kvs'
            ∧ versionOk ver kvs' = true := ⟨kvs, rfl, hv⟩
        have hne : (load ver st (PyVal.dict kvs)).2 ≠ some LoadErr.format := by
          cases hdoc : dlookup kvs "docnames" with
          | none => simp [load, hv, hdoc]
          | some dn =>
              cases hfl : dlookup kvs "filenames" with
              | none => simp [load, hv, hdoc, hfl]
              | some fv =>
                  cases hitd : pyIter dn with
                  | none => simp [load, hv, hdoc, hfl, hitd]
                  | some dns =>
                      cases hitf : pyIter fv with
                      | none => simp [load, hv, hdoc, hfl, hitd, hitf]
                      | some fxs =>
                          cases hsp : strPairs (dns.zip fxs) with
                          | none => simp [load, hv, hdoc, hfl, hitd, hitf, hsp]
                          | some fpairs =>
                              cases hti : dlookup kvs "titles" with
                              | none => simp [load, hv, hdoc, hfl, hitd, hitf, hsp, hti]
                              | some tv =>
                                  cases hitt : pyIter tv with
                                  | none => simp [load, hv, hdoc, hfl, hitd, hitf, hsp, hti, hitt]
                                  | some txs =>
                                      cases hsp2 : strPairs (dns.zip txs) with
                                      | none => simp [load, hv, hdoc, hfl, hitd, hitf, hsp, hti, hitt, hsp2]
                                      | some tpairs =>
                                          cases hte : dlookup kvs "terms" with
                                          | none => simp [load, hv, hdoc, hfl, hitd, hitf, hsp, hti, hitt, hsp2, hte]
                                          | some mv =>
                                              cases hlt : load_terms dn mv with
                                              | error e =>
                                                  have hef := load_terms_not_format hlt
                                                  simp [load, hv, hdoc, hfl, hitd, hitf, hsp, hti, hitt, hsp2, hte, hlt, hef]
                                              | ok om =>
                                                  cases om with
                                                  | none => simp [load, hv, hdoc, hfl, hitd, hitf, hsp, hti, hitt, hsp2, hte, hlt]
                                                  | some m =>
                                                      cases htt : dlookup kvs "titleterms" with
                                                      | none => simp [load, hv, hdoc, hfl, hitd, hitf, hsp, hti, hitt, hsp2, hte, hlt, htt]
                                                      | some ttv =>
                                                          cases hltt : load_terms dn ttv with
                                                          | error e =>
                                                              have hef := load_terms_not_format hltt
                                                              simp [load, hv, hdoc, hfl, hitd, hitf, hsp, hti, hitt, hsp2, hte, hlt, htt, hltt, hef]
                                                          | ok om2 =>
                                                              cases om2 with
                                                              | none => simp [load, hv, hdoc, hfl, hitd, hitf, hsp, hti, hitt, hsp2, hte, hlt, htt, hltt]
                                                              | some tm => simp [load, hv, hdoc, hfl, hitd, hitf, hsp, hti, hitt, hsp2, hte, hlt, htt, hltt]
        exact ⟨iff_of_false hne (not_not_intro hex), fun hc => absurd hc hne⟩
      · have hnex : ¬ ∃ kvs', PyVal.dict kvs = PyVal.dict kvs'
            ∧ versionOk ver kvs' = true := by
          rintro ⟨kvs', hk, hv'⟩
          cases hk
          exact hv hv'
        refine ⟨by simp [load, hv, hnex], by simp [load, hv]⟩

/-- C6 (amended): `load` raises the format `ValueError` exactly when the
snapshot is not a dict or its `envversion` differs from the expected version,
and in that case — and only then is it guaranteed — the store is untouched.
A version-matching dict can raise `KeyError`, `TypeError`, `AttributeError`
or `IndexError` from the later fields and can leave the store partially
updated (`_filenames` is overwritten before `_titles`, both before the term
mappings).  Shape is otherwise unchecked — `zip` accepts any iterable, so
for instance a string field loads — and well-shapedness (`snapshotOk`) is
sufficient for success but not necessary. -/
theorem load_error_behavior (ver : String) (st : Store) (frozen : PyVal) :
    ((load ver st frozen).2 = some LoadErr.format ↔
      ¬ ∃ kvs, frozen = PyVal.dict kvs ∧ versionOk ver kvs = true)
    ∧ ((load ver st frozen).2 = some LoadErr.format → (load ver st frozen).1 = st)
    ∧ (snapshotOk ver frozen = true → (load ver st frozen).2 = Option.none) :=
  ⟨(load_format_characterization ver st frozen).1,
   (load_format_characterization ver st frozen).2,
   fun h => load_success_of_snapshotOk ver st frozen h⟩

def goodSnapshot : PyVal :=
  .dict [("envversion", .str "v"), ("docnames", .list [.str "d"]),
    ("filenames", .list [.str "f"]), ("titles", .list [.str "T"]),
    ("terms", .dict [("a", .int 0)]), ("titleterms", .dict [])]

theorem load_error_behavior_witness :
    (load "v" emptyStore goodSnapshot).2 = Option.none :=
  (load_error_behavior "v" emptyStore goodSnapshot).2.2 (by decide)

def loadDemoStore : Store :=
  ⟨[("d", PyVal.str "T")], [("d", PyVal.str "F")], [], [], []⟩

/-- A version-matching snapshot whose `titles` field is missing: `load` has
already overwritten `_filenames` when the `KeyError` fires. -/
def partialSnapshot : PyVal :=
  .dict [("envversion", .str "v"), ("docnames", .list []),
    ("filenames", .list [])]

/-- A version-matching snapshot with every required field present and
well-shaped except that its `terms` mapping holds an out-of-range document
index. -/
def outOfRangeSnapshot : PyVal :=
  .dict [("envversion", .str "v"), ("docnames", .list [.str "d"]),
    ("filenames", .list [.str "f"]), ("titles", .list [.str "T"]),
    ("terms", .dict [("a", .int 3)]), ("titleterms", .dict [])]

/-- A version-matching snapshot whose `filenames` field is the string `"xy"`
rather than a list: `zip` iterates its characters, so the source loads it
without raising. -/
def stringFieldSnapshot : PyVal :=
  .dict [("envversion", .str "v"), ("docnames", .list [.str "d"]),
    ("filenames", .str "xy"), ("titles", .list [.str "T"]),
    ("terms", .dict [("a", .int 0)]), ("titleterms", .dict [])]

/-- C6, as literally stated, is false on the code in both directions: on
`partialSnapshot` load raises (`KeyError` for `titles`) yet the store is NOT
left unchanged — `_filenames` is already overwritten while `_titles` is
stale; on `outOfRangeSnapshot`, whose version matches and whose required
fields are all present, load still raises (`IndexError`); and structural
shape is not checked either — `stringFieldSnapshot`, whose `filenames` field
is a string rather than a list, loads without raising. -/
theorem load_partial_update :
    (load "v" loadDemoStore partialSnapshot).2 = some LoadErr.key
    ∧ (load "v" loadDemoStore partialSnapshot).1.filenames ≠ loadDemoStore.filenames
    ∧ (load "v" loadDemoStore partialSnapshot).1.titles = loadDemoStore.titles
    ∧ (load "v" loadDemoStore outOfRangeSnapshot).2 = some LoadErr.index
    ∧ (load "v" emptyStore stringFieldSnapshot).2 = Option.none :=
  ⟨rfl, fun h => absurd (congrArg List.length h) (by decide), rfl, rfl, rfl⟩


/-! ## C4: freeze followed by load reproduces the store -/

/-- The encoded form of one term's document set (total under the invariants
of a fed store, where `term2idx` never drops a key). -/
def encVal (f2i : List (String × Int)) (v : List String) : PyVal :=
  (term2idx f2i v).getD (.list [])

/-- The decoded form of one encoded term value. -/
def decVal (index2fn : List String) (f2i : List (String × Int)) (v : List String) :
    List String :=
  match loadTermVal (.list (index2fn.map .str)) (encVal f2i v) with
  | .ok (some w) => w
  | _ => []

theorem term2idx_isSome {f2i : List (String × Int)} {v : List String}
    (h : ∀ x ∈ v, (dlookup f2i x).isSome) : (term2idx f2i v).isSome := by
  match v with
  | [] => rfl
  | [fn] =>
      have := h fn (List.mem_cons_self _ _)
      simp only [term2idx]
      cases hl : dlookup f2i fn with
      | none => rw [hl] at this; cases this
      | some i => rfl
  | a :: b :: rest => rfl

theorem get_terms1_eq_map {f2i : List (String × Int)}
    {m : List (String × List String)}
    (h : ∀ kv ∈ m, (term2idx f2i kv.2).isSome) :
    get_terms1 f2i m = m.map (fun kv => (kv.1, encVal f2i kv.2)) := by
  induction m with
  | nil => rfl
  | cons kv rest ih =>
      have h0 := h kv (List.mem_cons_self _ _)
      have htail := ih (fun kv' h' => h kv' (List.mem_cons_of_mem _ h'))
      cases ht : term2idx f2i kv.2 with
      | none => rw [ht] at h0; cases h0
      | some pv =>
          simp only [get_terms1, List.filterMap_cons, ht] at htail ⊢
          simp [encVal, ht, htail]

theorem zip_map_self {α β : Type} (xs : List α) (f : α → β) :
    xs.zip (xs.map f) = xs.map (fun x => (x, f x)) := by
  induction xs with
  | nil => rfl
  | cons x rest ih => simp [ih]

theorem dlookup_map_pair {β : Type} (xs : List String) (f : String → β)
    (k : String) :
    dlookup (xs.map (fun x => (x, f x))) k = if k ∈ xs then some (f k) else none := by
  induction xs with
  | nil => simp [dlookup]
  | cons x rest ih =>
      simp only [List.map_cons, dlookup]
      by_cases hx : x = k
      · subst hx
        rw [if_pos rfl, if_pos (List.mem_cons_self _ _)]
      · rw [if_neg hx, ih]
        by_cases hm : k ∈ rest
        · rw [if_pos hm, if_pos (List.mem_cons_of_mem _ hm)]
        · rw [if_neg hm, if_neg (fun hh => by
            rcases List.mem_cons.mp hh with h' | h'
            · exact hx h'.symm
            · exact hm h')]

theorem dkeys_map_pair {β : Type} (xs : List String) (f : String → β) :
    dkeys (xs.map (fun x => (x, f x))) = xs := by
  induction xs with
  | nil => rfl
  | cons x rest ih =>
      show x :: dkeys (rest.map (fun x => (x, f x))) = x :: rest
      rw [ih]

theorem some_getD {α : Type} {o : Option α} (h : o.isSome) (x : α) :
    some (o.getD x) = o := by
  cases o with
  | none => cases h
  | some v => rfl

theorem decode_encVal {index2fn : List String} {f2i : List (String × Int)}
    {v : List String}
    (hget : ∀ x ∈ v, ∃ i, dlookup f2i x = some i)
    (hback : ∀ x i, dlookup f2i x = some i → pyIndex index2fn i = some x) :
    loadTermVal (.list (index2fn.map .str)) (encVal f2i v)
      = .ok (some (decVal index2fn f2i v))
    ∧ (∀ x, x ∈ decVal index2fn f2i v ↔ x ∈ v) := by
  match v with
  | [fn] =>
      obtain ⟨i, hi⟩ := hget fn (List.mem_cons_self _ _)
      have hb := hback fn i hi
      have henc : encVal f2i [fn] = .int i := by
        simp [encVal, term2idx, hi]
      have hpv : pyIndexVal (.list (index2fn.map .str)) (.int i) = .ok (.str fn) :=
        pyIndexVal_str_iff.mpr hb
      have hltv : loadTermVal (.list (index2fn.map .str)) (encVal f2i [fn])
          = .ok (some [fn]) := by
        rw [henc]
        simp [loadTermVal, hpv]
      refine ⟨?_, ?_⟩
      · rw [hltv, decVal, hltv]
      · intro x
        rw [decVal, hltv]
  | [] =>
      refine ⟨?_, ?_⟩
      · rw [decVal]
        rw [show loadTermVal (.list (index2fn.map PyVal.str)) (encVal f2i [])
          = .ok (some []) from rfl]
      · intro x
        rw [decVal]
        rw [show loadTermVal (.list (index2fn.map PyVal.str)) (encVal f2i [])
          = .ok (some []) from rfl]
  | a :: b :: rest =>
      have hperm := insSortBy_perm intLe ((a :: b :: rest).filterMap
        (fun fn => dlookup f2i fn))
      have hmem_is : ∀ i ∈ insSortBy intLe ((a :: b :: rest).filterMap
          (fun fn => dlookup f2i fn)), ∃ x ∈ a :: b :: rest, dlookup f2i x = some i := by
        intro i hi
        exact List.mem_filterMap.mp (hperm.subset hi)
      have hsome : ∀ x ∈ (insSortBy intLe ((a :: b :: rest).filterMap
          (fun fn => dlookup f2i fn))).map PyVal.int,
          ∃ fn, pyIndexVal (.list (index2fn.map .str)) x = .ok (.str fn) := by
        intro x hx
        obtain ⟨i, hi, rfl⟩ := List.mem_map.mp hx
        obtain ⟨y, _, hy⟩ := hmem_is i hi
        exact ⟨y, pyIndexVal_str_iff.mpr (hback y i hy)⟩
      obtain ⟨w, hw, hwmem⟩ := loadSetAux_decode _ _ hsome []
      have henc : encVal f2i (a :: b :: rest)
          = .list ((insSortBy intLe ((a :: b :: rest).filterMap
              (fun fn => dlookup f2i fn))).map PyVal.int) := rfl
      have hltv : loadTermVal (.list (index2fn.map .str)) (encVal f2i (a :: b :: rest))
          = .ok (some w) := by
        rw [henc]
        simp only [loadTermVal, pyIter]
        exact hw
      refine ⟨?_, ?_⟩
      · rw [hltv, decVal, hltv]
      · intro x
        rw [decVal, hltv]
        rw [hwmem x]
        simp only [List.not_mem_nil, false_or]
        constructor
        · rintro ⟨xi, hxi, hx⟩
          obtain ⟨i, hi, rfl⟩ := List.mem_map.mp hxi
          rw [pyIndexVal_str_iff] at hx
          obtain ⟨x', hx', hlk⟩ := hmem_is i hi
          have hpx := hback x' i hlk
          rw [hpx] at hx
          cases hx
          exact hx'
        · intro hx
          obtain ⟨i, hi⟩ := hget x hx
          refine ⟨.int i, ?_, pyIndexVal_str_iff.mpr (hback x i hi)⟩
          exact List.mem_map_of_mem _ (hperm.mem_iff.mpr
            (List.mem_filterMap.mpr ⟨x, hx, hi⟩))

theorem loadTermItems_decode (index2fn : List String) (f2i : List (String × Int)) :
    ∀ (pairs : List (String × List String)),
      (∀ kv ∈ pairs, loadTermVal (.list (index2fn.map .str)) (encVal f2i kv.2)
        = .ok (some (decVal index2fn f2i kv.2))) →
      loadTermItems (.list (index2fn.map .str))
          (pairs.map (fun kv => (kv.1, encVal f2i kv.2)))
        = .ok (some (pairs.map (fun kv => (kv.1, decVal index2fn f2i kv.2)))) := by
  intro pairs
  induction pairs with
  | nil => intro _; rfl
  | cons kv rest ih =>
      intro hok
      obtain ⟨k, v⟩ := kv
      have h0 := hok (k, v) (List.mem_cons_self _ _)
      have htail := ih (fun kv' h' => hok kv' (List.mem_cons_of_mem _ h'))
      simp [loadTermItems, h0, htail]

/-- Loading a snapshot of exactly the shape `freeze` emits succeeds and
replaces the four registries. -/
theorem load_of_freeze_shape (ver : String) (st₀ : Store) (docnames : List String)
    (fvals tvals : List PyVal) (terms titleterms : List (String × PyVal))
    (ob1 ob2 ob3 : PyVal) (M TM : List (String × List String))
    (hterms : loadTermItems (.list (docnames.map .str)) terms = .ok (some M))
    (htterms : loadTermItems (.list (docnames.map .str)) titleterms = .ok (some TM)) :
    load ver st₀ (.dict
      [("docnames", .list (docnames.map .str)), ("filenames", .list fvals),
       ("titles", .list tvals), ("terms", .dict terms), ("objects", ob1),
       ("objtypes", ob2), ("objnames", ob3), ("titleterms", .dict titleterms),
       ("envversion", .str ver)])
      = ({ st₀ with
          filenames := dictFromPairs (docnames.zip fvals)
          titles := dictFromPairs (docnames.zip tvals)
          mapping := M
          title_mapping := TM }, Option.none) := by
  simp [load, versionOk, dlookup, pyIter, strPairs_zip_map, load_terms, hterms,
    htterms]


theorem freeze_of_sorted (ver : String)
    (getObjects : List (String × Int) → PyVal × PyVal × PyVal) (st : Store)
    (itm : String × PyVal) (itms : List (String × PyVal))
    (hitems : insSortBy keyLe st.titles = itm :: itms) :
    freeze ver getObjects st = some (.dict
      [("docnames", .list (((itm :: itms).map Prod.fst).map .str)),
       ("filenames", .list (((itm :: itms).map Prod.fst).map
          (fun d => (dlookup st.filenames d).getD PyVal.none))),
       ("titles", .list ((itm :: itms).map Prod.snd)),
       ("terms", .dict (get_terms1 (enumPairs 0 ((itm :: itms).map Prod.fst))
          st.mapping)),
       ("objects", (getObjects (enumPairs 0 ((itm :: itms).map Prod.fst))).1),
       ("objtypes", (getObjects (enumPairs 0 ((itm :: itms).map Prod.fst))).2.1),
       ("objnames", (getObjects (enumPairs 0 ((itm :: itms).map Prod.fst))).2.2),
       ("titleterms", .dict (get_terms1 (enumPairs 0 ((itm :: itms).map Prod.fst))
          st.title_mapping)),
       ("envversion", .str ver)]) := by
  unfold freeze
  rw [hitems]

/-- C4: a `freeze` of a store with at least one fed document, reloaded with
the matching expected version, succeeds and reproduces the original store:
the titles and filenames registries are lookup-identical, and both term
mappings hold the same keys with the same document sets.  The hypotheses are
the invariants every fed store satisfies: distinct dict keys, every mapped
document registered in `_titles`, and `_titles`/`_filenames` registered
together. -/
theorem freeze_load_roundtrip (ver : String)
    (getObjects : List (String × Int) → PyVal × PyVal × PyVal)
    (st st₀ : Store)
    (h1 : st.titles ≠ [])
    (h2 : NodupKeys st.titles)
    (h3 : NodupKeys st.mapping)
    (h4 : NodupKeys st.title_mapping)
    (h5 : ∀ kv ∈ st.mapping, ∀ x ∈ kv.2, x ∈ dkeys st.titles)
    (h5t : ∀ kv ∈ st.title_mapping, ∀ x ∈ kv.2, x ∈ dkeys st.titles)
    (h6 : ∀ x ∈ dkeys st.titles, x ∈ dkeys st.filenames)
    (h7 : ∀ x ∈ dkeys st.filenames, x ∈ dkeys st.titles) :
    ∃ fz, freeze ver getObjects st = some fz
      ∧ (load ver st₀ fz).2 = Option.none
      ∧ (∀ k, dlookup (load ver st₀ fz).1.titles k = dlookup st.titles k)
      ∧ (∀ k, dlookup (load ver st₀ fz).1.filenames k = dlookup st.filenames k)
      ∧ (∀ t, (dlookup (load ver st₀ fz).1.mapping t).isSome
          = (dlookup st.mapping t).isSome)
      ∧ (∀ t x, x ∈ (dlookup (load ver st₀ fz).1.mapping t).getD []
          ↔ x ∈ (dlookup st.mapping t).getD [])
      ∧ (∀ t, (dlookup (load ver st₀ fz).1.title_mapping t).isSome
          = (dlookup st.title_mapping t).isSome)
      ∧ (∀ t x, x ∈ (dlookup (load ver st₀ fz).1.title_mapping t).getD []
          ↔ x ∈ (dlookup st.title_mapping t).getD []) := by
  cases hitems : insSortBy keyLe st.titles with
  | nil =>
      exfalso
      have hp := insSortBy_perm keyLe st.titles
      rw [hitems] at hp
      exact h1 (List.Perm.eq_nil hp.symm)
  | cons itm itms =>
      have hperm : (itm :: itms).Perm st.titles := by
        have := insSortBy_perm keyLe st.titles
        rwa [hitems] at this
      have hNodupItems : NodupKeys (itm :: itms) := nodupKeys_perm hperm.symm h2
      have hdocperm : ((itm :: itms).map Prod.fst).Perm (dkeys st.titles) :=
        hperm.map Prod.fst
      have hdocnodup : ((itm :: itms).map Prod.fst).Nodup := hdocperm.nodup_iff.mpr h2
      have hdocmem : ∀ x, x ∈ (itm :: itms).map Prod.fst ↔ x ∈ dkeys st.titles :=
        fun x => hdocperm.mem_iff
      have hget : ∀ x ∈ dkeys st.titles,
          ∃ i, dlookup (enumPairs 0 ((itm :: itms).map Prod.fst)) x = some i := by
        intro x hx
        have := enumPairs_isSome ((hdocmem x).mpr hx) 0
        exact Option.isSome_iff_exists.mp this
      have hback : ∀ x i,
          dlookup (enumPairs 0 ((itm :: itms).map Prod.fst)) x = some i →
            pyIndex ((itm :: itms).map Prod.fst) i = some x :=
        fun x i h => enumPairs_pyIndex h
      have hencm : ∀ kv ∈ st.mapping,
          (term2idx (enumPairs 0 ((itm :: itms).map Prod.fst)) kv.2).isSome := by
        intro kv hkv
        apply term2idx_isSome
        intro x hx
        obtain ⟨i, hi⟩ := hget x (h5 kv hkv x hx)
        simp only [hi, Option.isSome_some]
      have henct : ∀ kv ∈ st.title_mapping,
          (term2idx (enumPairs 0 ((itm :: itms).map Prod.fst)) kv.2).isSome := by
        intro kv hkv
        apply term2idx_isSome
        intro x hx
        obtain ⟨i, hi⟩ := hget x (h5t kv hkv x hx)
        simp only [hi, Option.isSome_some]
      have hdecm : ∀ kv ∈ st.mapping,
          loadTermVal (.list (((itm :: itms).map Prod.fst).map .str))
              (encVal (enumPairs 0 ((itm :: itms).map Prod.fst)) kv.2)
            = .ok (some (decVal ((itm :: itms).map Prod.fst)
                (enumPairs 0 ((itm :: itms).map Prod.fst)) kv.2))
          ∧ ∀ x, x ∈ decVal ((itm :: itms).map Prod.fst)
                (enumPairs 0 ((itm :: itms).map Prod.fst)) kv.2 ↔ x ∈ kv.2 := by
        intro kv hkv
        exact decode_encVal (fun x hx => hget x (h5 kv hkv x hx)) hback
      have hdect : ∀ kv ∈ st.title_mapping,
          loadTermVal (.list (((itm :: itms).map Prod.fst).map .str))
              (encVal (enumPairs 0 ((itm :: itms).map Prod.fst)) kv.2)
            = .ok (some (decVal ((itm :: itms).map Prod.fst)
                (enumPairs 0 ((itm :: itms).map Prod.fst)) kv.2))
          ∧ ∀ x, x ∈ decVal ((itm :: itms).map Prod.fst)
                (enumPairs 0 ((itm :: itms).map Prod.fst)) kv.2 ↔ x ∈ kv.2 := by
        intro kv hkv
        exact decode_encVal (fun x hx => hget x (h5t kv hkv x hx)) hback
      have hments := loadTermItems_decode ((itm :: itms).map Prod.fst)
        (enumPairs 0 ((itm :: itms).map Prod.fst)) st.mapping
        (fun kv hkv => (hdecm kv hkv).1)
      have hmentst := loadTermItems_decode ((itm :: itms).map Prod.fst)
        (enumPairs 0 ((itm :: itms).map Prod.fst)) st.title_mapping
        (fun kv hkv => (hdect kv hkv).1)
      have hfz := freeze_of_sorted ver getObjects st itm itms hitems
      refine ⟨_, hfz, ?_⟩
      rw [get_terms1_eq_map hencm, get_terms1_eq_map henct]
      rw [load_of_freeze_shape ver st₀ ((itm :: itms).map Prod.fst) _ _ _ _ _ _ _
        _ _ hments hmentst]
      refine ⟨rfl, ?_, ?_, ?_, ?_, ?_, ?_⟩
      · -- titles
        intro k
        show dlookup (dictFromPairs (((itm :: itms).map Prod.fst).zip
          ((itm :: itms).map Prod.snd))) k = _
        rw [zip_map_fst_snd, dictFromPairs_eq_self hNodupItems,
          dlookup_perm hperm hNodupItems]
      · -- filenames
        intro k
        show dlookup (dictFromPairs (((itm :: itms).map Prod.fst).zip
          (((itm :: itms).map Prod.fst).map
            (fun d => (dlookup st.filenames d).getD PyVal.none)))) k = _
        rw [zip_map_self, dictFromPairs_eq_self
          (show NodupKeys _ by
            rw [NodupKeys, dkeys_map_pair]
            exact hdocnodup),
          dlookup_map_pair]
        by_cases hk : k ∈ (itm :: itms).map Prod.fst
        · rw [if_pos hk]
          have hfk : k ∈ dkeys st.filenames := h6 k ((hdocmem k).mp hk)
          exact some_getD ((mem_dkeys_iff_isSome _ _).mp hfk) _
        · rw [if_neg hk]
          have hfk : k ∉ dkeys st.filenames :=
            fun hh => hk ((hdocmem k).mpr (h7 k hh))
          exact (dlookup_eq_none_of_not_mem hfk).symm
      · -- mapping keys
        intro t
        show (dlookup (st.mapping.map (fun kv => (kv.1, decVal _ _ kv.2))) t).isSome
          = _
        rw [dlookup_map_values]
        cases dlookup st.mapping t <;> rfl
      · -- mapping membership
        intro t x
        show x ∈ (dlookup (st.mapping.map (fun kv => (kv.1, decVal _ _ kv.2))) t).getD []
          ↔ _
        rw [dlookup_map_values]
        cases hdl : dlookup st.mapping t with
        | none => simp
        | some v =>
            simp only [Option.map_some', Option.getD_some]
            exact (hdecm (t, v) (dlookup_mem hdl)).2 x
      · -- title mapping keys
        intro t
        show (dlookup (st.title_mapping.map (fun kv => (kv.1, decVal _ _ kv.2))) t).isSome
          = _
        rw [dlookup_map_values]
        cases dlookup st.title_mapping t <;> rfl
      · -- title mapping membership
        intro t x
        show x ∈ (dlookup (st.title_mapping.map
          (fun kv => (kv.1, decVal _ _ kv.2))) t).getD [] ↔ _
        rw [dlookup_map_values]
        cases hdl : dlookup st.title_mapping t with
        | none => simp
        | some v =>
            simp only [Option.map_some', Option.getD_some]
            exact (hdect (t, v) (dlookup_mem hdl)).2 x

/-- Concrete one-document store for exercising the freeze/load roundtrip. -/
def rtStore : Store :=
  { titles := [("doc", .str "Title")]
    filenames := [("doc", .str "doc.rst")]
    mapping := [("widget", ["doc"])]
    title_mapping := [("titl", ["doc"])]
    stem_cache := [] }

/-- Witness for C4: the roundtrip theorem applied to a concrete one-document
store with one body term and one title term. -/
theorem freeze_load_roundtrip_witness :
    ∃ fz, freeze "1" (fun _ => (.none, .none, .none)) rtStore = some fz
      ∧ (load "1" emptyStore fz).2 = Option.none
      ∧ (∀ k, dlookup (load "1" emptyStore fz).1.titles k
          = dlookup rtStore.titles k)
      ∧ (∀ k, dlookup (load "1" emptyStore fz).1.filenames k
          = dlookup rtStore.filenames k)
      ∧ (∀ t, (dlookup (load "1" emptyStore fz).1.mapping t).isSome
          = (dlookup rtStore.mapping t).isSome)
      ∧ (∀ t x, x ∈ (dlookup (load "1" emptyStore fz).1.mapping t).getD []
          ↔ x ∈ (dlookup rtStore.mapping t).getD [])
      ∧ (∀ t, (dlookup (load "1" emptyStore fz).1.title_mapping t).isSome
          = (dlookup rtStore.title_mapping t).isSome)
      ∧ (∀ t x, x ∈ (dlookup (load "1" emptyStore fz).1.title_mapping t).getD []
          ↔ x ∈ (dlookup rtStore.title_mapping t).getD []) :=
  freeze_load_roundtrip "1" (fun _ => (.none, .none, .none)) rtStore emptyStore
    (by exact List.cons_ne_nil _ _) (by decide) (by decide) (by decide)
    (by decide) (by decide) (by decide) (by decide)

end SearchV2
